import Mathlib

/-!
Verification of the radon log-monitoring agent against its specification.

The Rust sources are shallowly embedded:
* `src/monitor.rs` — the tail engine (`process_event`, `process_chunk`,
  `reinit_file_descriptors`) and the per-match dispatch loop;
* `src/aggregator.rs` — the notification aggregator's event-loop branches;
* `src/config.rs` — `parse_monitor_config`, `value_to_string`,
  `assert_table_is_empty`.

File contents are byte lists (`List Nat`, newline = 10).  Calls into external
crates (UTF-8 decoding, regex matching, process spawning, filesystem opens)
are parameters of the embedded functions: the embedding records exactly what
the source does with their results.
-/

namespace Radon

/-! ## Tail engine: src/monitor.rs -/

/-- Environment of one spawned action: (variable, value) pairs. -/
abbrev Env := List (String × String)

/-- One regex match, as the map from capture-group name to captured text,
modelling `regex::Captures::name` (association-list lookup). -/
abbrev CapMap := List (String × String)

/-- Lines 179–190 of `src/monitor.rs`: iterate over `capture_names()` of the
regex, keep only the named groups (`filter(Option::is_some)`); a group present
in this match is put in the command environment, an absent one is warned about
and omitted. -/
def build_capture_env (capture_names : List (Option String)) (caps : CapMap) : Env :=
  (capture_names.filterMap id).filterMap fun n => (caps.lookup n).map fun v => (n, v)

/-- Lines 175–192 of `src/monitor.rs`: the per-match loop of `process_chunk`.
Each match is paired with the outcome of its `spawn()?.wait().await?` call
(`true` = the command was spawned and waited on successfully).  Returns the
environments of the actions actually executed, in order, and `false` iff a
spawn/wait error was propagated with `?` (which exits the loop early). -/
def run_matches (capture_names : List (Option String)) :
    List (CapMap × Bool) → List Env × Bool
  | [] => ([], true)
  | (caps, ok) :: rest =>
    if ok then
      (build_capture_env capture_names caps :: (run_matches capture_names rest).1,
       (run_matches capture_names rest).2)
    else
      ([], false)

/-- Result of one poll of the tail engine (`process_event`/`process_chunk`).
`reads` records each `(offset, length)` region read from the file, in order.
`ok = false` iff an error was propagated out of the match loop. -/
structure PollResult where
  newCursor : Nat
  raw : Option (List Nat)
  chunk : Option String
  executed : List Env
  ok : Bool
  reads : List (Nat × Nat)
  invokedChunk : Bool
deriving Repr, DecidableEq

/-- Lines 146–197 of `src/monitor.rs` (`Monitor::process_chunk`).
`decode` stands for `String::from_utf8`, `matcher` for
`log_regex.captures_iter`, `spawnOk i` for the success of the `i`-th match's
`spawn()?.wait().await?`.  The function
1. seeks to `new_size - 1` and reads one byte; if it is not `\n` it warns and
   returns without touching the cursor;
2. seeks to `cursor` and reads `chunk_size - 1` bytes (the region without its
   trailing newline);
3. on decode failure logs, sets `cursor = new_size` and returns;
4. otherwise runs the match loop and, if no error was propagated, sets
   `cursor = new_size`. -/
def process_chunk (decode : List Nat → Option String)
    (capture_names : List (Option String)) (matcher : String → List CapMap)
    (spawnOk : Nat → Bool) (file : List Nat) (cursor new_size : Nat) : PollResult :=
  if (file.drop (new_size - 1)).headD 0 ≠ 10 then
    { newCursor := cursor, raw := none, chunk := none, executed := [], ok := true,
      reads := [(new_size - 1, 1)], invokedChunk := true }
  else
    match decode ((file.drop cursor).take (new_size - cursor - 1)) with
    | none =>
      { newCursor := new_size, raw := some ((file.drop cursor).take (new_size - cursor - 1)),
        chunk := none, executed := [], ok := true,
        reads := [(new_size - 1, 1), (cursor, new_size - cursor - 1)], invokedChunk := true }
    | some s =>
      if (run_matches capture_names ((matcher s).enum.map fun p => (p.2, spawnOk p.1))).2 then
        { newCursor := new_size, raw := some ((file.drop cursor).take (new_size - cursor - 1)),
          chunk := some s,
          executed := (run_matches capture_names ((matcher s).enum.map fun p => (p.2, spawnOk p.1))).1,
          ok := true,
          reads := [(new_size - 1, 1), (cursor, new_size - cursor - 1)], invokedChunk := true }
      else
        { newCursor := cursor, raw := some ((file.drop cursor).take (new_size - cursor - 1)),
          chunk := some s,
          executed := (run_matches capture_names ((matcher s).enum.map fun p => (p.2, spawnOk p.1))).1,
          ok := false,
          reads := [(new_size - 1, 1), (cursor, new_size - cursor - 1)], invokedChunk := true }

/-- Lines 98–108 of `src/monitor.rs` (`Monitor::process_event`, after the
rotation dispatch): read the file length; if it shrank below the cursor, warn
and clamp the cursor to it; if it equals the cursor, do nothing; otherwise
process the new chunk.  (The rotation branch of lines 90–96 is modelled
separately by `reinit_file_descriptors`.) -/
def process_event (decode : List Nat → Option String)
    (capture_names : List (Option String)) (matcher : String → List CapMap)
    (spawnOk : Nat → Bool) (file : List Nat) (cursor : Nat) : PollResult :=
  if file.length < cursor then
    { newCursor := file.length, raw := none, chunk := none, executed := [], ok := true,
      reads := [], invokedChunk := false }
  else if file.length = cursor then
    { newCursor := cursor, raw := none, chunk := none, executed := [], ok := true,
      reads := [], invokedChunk := false }
  else
    process_chunk decode capture_names matcher spawnOk file cursor file.length

/-- One iteration of the reopen loop in `reinit_file_descriptors`
(lines 122–137 of `src/monitor.rs`): `ok` is whether `OpenOptions::open`
succeeded, `late` is whether `Instant::now() > timeout` (the one-second
deadline set at line 121) held when the failed attempt checked it. -/
structure Attempt where
  ok : Bool
  late : Bool
deriving Repr, DecidableEq

/-- The tail-engine state touched by rotation recovery: the byte cursor and
whether a filesystem watch on the path is armed. -/
structure FdState where
  cursor : Nat
  watching : Bool
deriving Repr, DecidableEq

/-- Lines 111–144 of `src/monitor.rs` (`Monitor::reinit_file_descriptors`):
after unwatching the path, repeatedly try to reopen it; the first success
breaks the loop, resets the cursor to 0 and re-arms the watch; a failure past
the one-second deadline bails with a "file moved" error; an in-time failure
sleeps 10 ms and retries.  The argument lists the outcomes of the successive
open attempts; `none` means the listed attempts were exhausted with the loop
still running (time never passed the deadline in the window modelled). -/
def reinit_file_descriptors : List Attempt → Option (Except String FdState)
  | [] => none
  | a :: rest =>
    if a.ok then some (.ok { cursor := 0, watching := true })
    else if a.late then some (.error "file moved")
    else reinit_file_descriptors rest

/-! ## Write/poll traces of the tail engine

`TraceStep` schedules the interleaving of appended writes (by the external
log producer) and polls of `Monitor::process_event`.  Polls are run with a
total decoder and no pattern matches, so the trace isolates the byte-level
chunk production of the engine; the initial state is an empty file with
cursor 0 (the cursor starts at end-of-file, and rotation resets it to 0). -/

/-- A step of a tail-engine schedule: an appended write or a poll. -/
inductive TraceStep where
  | write (bytes : List Nat)
  | poll
deriving Repr, DecidableEq

/-- Trace state: current file content, cursor, raw chunks produced so far (in
order), and the cursor value observed after each poll. -/
structure TraceState where
  file : List Nat
  cursor : Nat
  raws : List (List Nat)
  cursors : List Nat
deriving Repr, DecidableEq

/-- A decoder that always succeeds (polls in a trace study only the byte-level
region logic, which does not depend on the decoded text). -/
def decodeTotal : List Nat → Option String := fun _ => some ""

/-- A matcher producing no matches (traces study chunk production, not
dispatch). -/
def matcherNone : String → List CapMap := fun _ => []

/-- Run one schedule step. -/
def stepTrace (s : TraceState) : TraceStep → TraceState
  | .write bs => { s with file := s.file ++ bs }
  | .poll =>
    let r := process_event decodeTotal [] matcherNone (fun _ => true) s.file s.cursor
    { s with cursor := r.newCursor, raws := s.raws ++ r.raw.toList,
             cursors := s.cursors ++ [r.newCursor] }

/-- Run a whole schedule from the empty file. -/
def runTrace (steps : List TraceStep) : TraceState :=
  steps.foldl stepTrace { file := [], cursor := 0, raws := [], cursors := [] }

/-- Concatenation of byte chunks with each chunk's trailing newline restored. -/
def joinNl (rs : List (List Nat)) : List Nat :=
  rs.foldr (fun c acc => c ++ 10 :: acc) []

/-! ## Notification aggregator: src/aggregator.rs -/

/-- Modelled from the spec: `Notification` is imported by the aggregator from
the configuration module but is not among the sources; §3 of the spec defines
it as a value object {channel-type tag, title, body}, matching the fields the
aggregator accesses (`r#type`, `title`, `body`). -/
structure Notification where
  type : String
  title : String
  body : String
deriving Repr, DecidableEq

/-- Modelled from the spec: `NotificationConfig` is imported by the aggregator
from the configuration module but is not among the sources; the aggregator
uses its `name` (the channel name, cloned into aggregate notifications) and an
optional SMTP transport, which the batching logic never inspects. -/
structure NotificationConfig where
  name : String
deriving Repr, DecidableEq

/-- Lines 45–51 of `src/aggregator.rs`: a notification arrives on the inbound
channel; with no batching interval it is sent immediately, otherwise it is
pushed on the queue.  Returns (notification sent now, new queue). -/
def on_notification (hasInterval : Bool) (queue : List Notification)
    (n : Notification) : Option Notification × List Notification :=
  if hasInterval then (none, queue ++ [n]) else (some n, queue)

/-- Lines 52–68 of `src/aggregator.rs`: the batch timer fires.  An empty queue
is a no-op; a single queued item is popped and sent unmodified; otherwise the
whole queue is drained and one aggregate notification is sent whose body joins
the queued bodies with newlines, typed with the channel name and titled
"Ramon Aggregated Notification".  Returns (notification sent, new queue). -/
def on_tick (config : NotificationConfig) (queue : List Notification) :
    Option Notification × List Notification :=
  if queue.isEmpty then (none, queue)
  else if queue.length = 1 then (queue.getLast?, queue.dropLast)
  else (some { type := config.name, title := "Ramon Aggregated Notification",
               body := String.intercalate "\n" (queue.map fun n => n.body) }, [])

/-! ## Configuration parsing: src/config.rs -/

/-- `toml::Value`, restricted to the variants the configuration code
distinguishes (`String`, `Array`, `Table`) plus scalar stand-ins for the
rest. -/
inductive Value where
  | str (s : String)
  | int (n : Int)
  | bool (b : Bool)
  | arr (vs : List Value)
  | table (t : List (String × Value))
deriving Repr

/-- `toml::Table`: a map from key to value, embedded as an association list
(the TOML parser produces unique keys). -/
abbrev TomlTable := List (String × Value)

/-- `Table::remove`: the value at the key, if any, together with the table
without that entry. -/
def tremove (k : String) (t : TomlTable) : Option Value × TomlTable :=
  (t.lookup k, t.eraseP fun p => p.1 == k)

mutual

/-- `toml::Value`'s `Display`, as called by `value_to_string` on non-string
values (string escaping elided). -/
def Value.display : Value → String
  | .str s => "\"" ++ s ++ "\""
  | .int n => toString n
  | .bool b => if b then "true" else "false"
  | .arr vs => "[" ++ displayList vs ++ "]"
  | .table t => "\x7b " ++ displayTable t ++ " \x7d"

/-- Comma-separated rendering of the elements of a TOML array. -/
def displayList : List Value → String
  | [] => ""
  | [v] => Value.display v
  | v :: vs => Value.display v ++ ", " ++ displayList vs

/-- Comma-separated rendering of the entries of a TOML table. -/
def displayTable : List (String × Value) → String
  | [] => ""
  | [(k, v)] => k ++ " = " ++ Value.display v
  | (k, v) :: t => k ++ " = " ++ Value.display v ++ ", " ++ displayTable t

end

/-- Lines 203–208 of `src/config.rs` (`value_to_string`): a string value is
taken as-is, any other value is rendered with its `Display`. -/
def value_to_string : Value → String
  | .str s => s
  | v => v.display

/-- Lines 210–215 of `src/config.rs` (`assert_table_is_empty`): bail naming
the first remaining key, succeed on an empty table. -/
def assert_table_is_empty : TomlTable → Except String Unit
  | [] => .ok ()
  | (k, _) :: _ => .error ("Invalid key `" ++ k ++ "`")

/-- A compiled regular expression (`regex::Regex`), carried by its pattern. -/
structure Regex where
  pattern : String
deriving Repr, DecidableEq

/-- `config::Exec` (lines 28–31 of `src/config.rs`). -/
inductive Exec where
  | shell (s : String)
  | spawn (args : List String)
deriving Repr

/-- `config::MonitorConfig` (lines 13–26 of `src/config.rs`); durations and
intervals are carried as their lengths. -/
structure MonitorConfig where
  name : String
  mutates_globals : Bool
  every : Option Nat
  log : Option String
  cooldown : Option Nat
  match_log : Option Regex
  exec : Option Exec
  set : TomlTable
  push : TomlTable
deriving Repr

/-- Lines 105–113 of `src/config.rs`: validation of the removed `every`
value (`duration_parse` stands for the external `duration_str::parse`,
`none` being its failure; the parsed interval is carried as its length). -/
def parse_every (duration_parse : String → Option Nat) :
    Option Value → Except String (Option Nat)
  | none => .ok none
  | some (.str s) =>
    match duration_parse s with
    | some d => .ok (some d)
    | none => .error "Key `every`: invalid duration"
  | some _ => .error "Key `every` must be a string."

/-- Lines 115–121 of `src/config.rs`: validation of the removed `log` value. -/
def parse_log : Option Value → Except String (Option String)
  | none => .ok none
  | some (.str s) => .ok (some s)
  | some _ => .error "Key `log` must be a string."

/-- Lines 123–132 of `src/config.rs`: validation of the removed `cooldown`
value. -/
def parse_cooldown (duration_parse : String → Option Nat) :
    Option Value → Except String (Option Nat)
  | none => .ok none
  | some (.str s) =>
    match duration_parse s with
    | some d => .ok (some d)
    | none => .error "Invalid cooldown"
  | some _ => .error "Key `cooldown` must be a string."

/-- Lines 134–144 of `src/config.rs`: validation of the removed `match_log`
value (`regex_new` stands for `Regex::new`, `none` being its failure; note
`as_str()` succeeds only on string values). -/
def parse_match_log (regex_new : String → Option Regex) :
    Option Value → Except String (Option Regex)
  | none => .ok none
  | some (.str s) =>
    match regex_new s with
    | some r => .ok (some r)
    | none => .error "Failed to parse match_log"
  | some _ => .error "Key `match_log` must be a string."

/-- Lines 149–158 of `src/config.rs`: validation of the removed `set` value;
the boolean is the `mutates_globals = true` assignment made in the table
branch. -/
def parse_set : Option Value → Except String (TomlTable × Bool)
  | none => .ok (([] : TomlTable), false)
  | some (.table s) => .ok (s, true)
  | some _ => .error "Key `set` must be a table."

/-- Lines 160–169 of `src/config.rs`: validation of the removed `push` value;
the boolean is the `mutates_globals = true` assignment made in the table
branch. -/
def parse_push : Option Value → Except String (TomlTable × Bool)
  | none => .ok (([] : TomlTable), false)
  | some (.table p) => .ok (p, true)
  | some _ => .error "Key `push` must be a table."

/-- Lines 171–184 of `src/config.rs`: validation of the removed `exec` value;
a string is a shell command, a non-empty array an argv vector (which sets
`mutates_globals = true`), an empty array a fatal error. -/
def parse_exec : Option Value → Except String (Option Exec × Bool)
  | none => .ok ((none : Option Exec), false)
  | some (.str s) => .ok (some (.shell s), false)
  | some (.arr args) =>
    if args.isEmpty then .error "Key `exec` must not be empty."
    else .ok (some (.spawn (args.map value_to_string)), true)
  | some _ => .error "Key `exec` must be a string or an array of strings."

/-- Lines 104–201 of `src/config.rs` (`parse_monitor_config`).  The keys are
removed and validated in source order (each `parse_*` above embeds one
key's validation block); `mutates_globals` starts `false` and is set by a
`set` table, a `push` table, or a non-empty `exec` array; any key left over
is a fatal "Invalid key" error. -/
def parse_monitor_config (regex_new : String → Option Regex)
    (duration_parse : String → Option Nat) (name : String)
    (monitor_table : TomlTable) : Except String MonitorConfig := do
  let (everyVal, t1) := tremove "every" monitor_table
  let every ← parse_every duration_parse everyVal
  let (logVal, t2) := tremove "log" t1
  let log ← parse_log logVal
  let (cooldownVal, t3) := tremove "cooldown" t2
  let cooldown ← parse_cooldown duration_parse cooldownVal
  let (mlVal, t4) := tremove "match_log" t3
  let match_log ← parse_match_log regex_new mlVal
  let (setVal, t5) := tremove "set" t4
  let (set, mg1) ← parse_set setVal
  let (pushVal, t6) := tremove "push" t5
  let (push, mg2) ← parse_push pushVal
  let (execVal, t7) := tremove "exec" t6
  let (exec, mg3) ← parse_exec execVal
  assert_table_is_empty t7
  pure { name, mutates_globals := mg1 || mg2 || mg3, every, log, cooldown,
         match_log, exec, set, push }

/-- Whether an optional TOML value is present and a table. -/
def is_table_value : Option Value → Bool
  | some (.table _) => true
  | _ => false

/-- Whether an optional TOML value is present and an array. -/
def is_arr_value : Option Value → Bool
  | some (.arr _) => true
  | _ => false

/-- A `set` key declared as a table in the monitor configuration. -/
def declares_set (t : TomlTable) : Bool :=
  is_table_value (t.lookup "set")

/-- A `push` key declared as a table in the monitor configuration. -/
def declares_push (t : TomlTable) : Bool :=
  is_table_value (t.lookup "push")

/-- An `exec` key declared in argv (array) form in the monitor
configuration. -/
def declares_exec_argv (t : TomlTable) : Bool :=
  is_arr_value (t.lookup "exec")

/-- Invariant of tail-engine traces: the cursor never passes the end of the
file, the chunks produced so far (with their trailing newlines restored) are
exactly the processed prefix of the file, and the cursor values observed after
the polls so far, capped by the current cursor, are non-decreasing. -/
def TraceInv (s : TraceState) : Prop :=
  s.cursor ≤ s.file.length ∧
  joinNl s.raws = s.file.take s.cursor ∧
  List.Chain' (· ≤ ·) (s.cursors ++ [s.cursor])

/-! ## Helper lemmas -/

theorem headD_drop_pred (l : List Nat) :
    (l.drop (l.length - 1)).headD 0 = l.getLast?.getD 0 := by
  rcases l.eq_nil_or_concat with rfl | ⟨xs, x, rfl⟩
  · rfl
  · simp only [List.concat_eq_append]
    have hd : (xs ++ [x]).drop ((xs ++ [x]).length - 1) = [x] := by
      simp [List.drop_left]
    rw [hd, List.getLast?_concat]
    rfl

theorem joinNl_append (xs ys : List (List Nat)) :
    joinNl (xs ++ ys) = joinNl xs ++ joinNl ys := by
  induction xs with
  | nil => rfl
  | cons c xs ih => simp [joinNl, List.foldr_cons] at ih ⊢; simp [ih]

/-- The region `[cursor, length)` of a byte list ending in a newline splits as
the chunk without its trailing newline, followed by that newline. -/
theorem drop_cursor_split (l : List Nat) (cursor : Nat) (h : cursor < l.length)
    (hnl : l.getLast? = some 10) :
    l.drop cursor = ((l.drop cursor).take (l.length - cursor - 1)) ++ [10] := by
  set d := l.drop cursor with hd
  have hdlen : d.length = l.length - cursor := by simp [hd]
  have hdne : d ≠ [] := by
    intro hnil
    rw [hnil] at hdlen
    simp at hdlen
    omega
  have hlast : d.getLast? = l.getLast? := by
    rw [List.getLast?_eq_getElem?, List.getLast?_eq_getElem?, hd, List.getElem?_drop,
        List.length_drop]
    congr 1
    omega
  have hsplit : d.dropLast ++ [d.getLast hdne] = d := List.dropLast_append_getLast hdne
  rw [List.dropLast_eq_take] at hsplit
  have hg : d.getLast hdne = 10 := by
    have h2 := List.getLast?_eq_getLast d hdne
    rw [h2, hnl] at hlast
    exact Option.some.inj hlast
  rw [hdlen, hg] at hsplit
  exact hsplit.symm

/-! ## Claim theorems -/

/-- C4: a poll that observes a file length strictly below the cursor clamps
the cursor to that length, produces no chunk and performs no read at all; and
every read any poll does perform happens with `cursor < length`, so the region
lengths `1` and `length - cursor - 1` are non-negative as integers — a
negative-length read is never attempted. -/
theorem truncation_clamps_cursor (decode : List Nat → Option String)
    (names : List (Option String)) (matcher : String → List CapMap)
    (spawnOk : Nat → Bool) (file : List Nat) (cursor : Nat) :
    (file.length < cursor →
      process_event decode names matcher spawnOk file cursor =
        { newCursor := file.length, raw := none, chunk := none, executed := [],
          ok := true, reads := [], invokedChunk := false }) ∧
    (∀ off len, (off, len) ∈ (process_event decode names matcher spawnOk file cursor).reads →
      cursor < file.length ∧
      ((off = file.length - 1 ∧ (len : ℤ) = 1) ∨
       (off = cursor ∧ (len : ℤ) = (file.length : ℤ) - cursor - 1 ∧
        0 ≤ (file.length : ℤ) - cursor - 1))) := by
  constructor
  · intro hlt
    simp [process_event, hlt]
  · intro off len hmem
    unfold process_event at hmem
    by_cases h1 : file.length < cursor
    · simp [h1] at hmem
    by_cases h2 : file.length = cursor
    · simp [h1, h2] at hmem
    have hc : cursor < file.length := by omega
    refine ⟨hc, ?_⟩
    have harith : ((file.length - cursor - 1 : ℕ) : ℤ) =
        (file.length : ℤ) - cursor - 1 := by omega
    simp only [if_neg h1, if_neg h2] at hmem
    unfold process_chunk at hmem
    split at hmem
    · simp at hmem
      refine Or.inl ⟨hmem.1, ?_⟩
      rw [hmem.2]
      rfl
    · split at hmem
      · simp at hmem
        rcases hmem with ⟨rfl, rfl⟩ | ⟨rfl, rfl⟩
        · exact Or.inl ⟨rfl, rfl⟩
        · exact Or.inr ⟨rfl, harith, by omega⟩
      · split at hmem <;>
        · simp at hmem
          rcases hmem with ⟨rfl, rfl⟩ | ⟨rfl, rfl⟩
          · exact Or.inl ⟨rfl, rfl⟩
          · exact Or.inr ⟨rfl, harith, by omega⟩

/-- C4 witness. -/
theorem truncation_clamps_cursor_witness :
    process_event (fun _ => some "") [] matcherNone (fun _ => true) [97] 5 =
      { newCursor := 1, raw := none, chunk := none, executed := [],
        ok := true, reads := [], invokedChunk := false } :=
  (truncation_clamps_cursor (fun _ => some "") [] matcherNone (fun _ => true) [97] 5).1
    (by decide)

/-- C10: chunk processing is reached only when the observed length strictly
exceeds the cursor, so the chunk is at least one byte and both subtractions of
`process_chunk` — the seek offset `new_size - 1` and the buffer size
`chunk_size - 1` — are exact (underflow-free) natural subtractions. -/
theorem chunk_arith_safe (decode : List Nat → Option String)
    (names : List (Option String)) (matcher : String → List CapMap)
    (spawnOk : Nat → Bool) (file : List Nat) (cursor : Nat) :
    (process_event decode names matcher spawnOk file cursor).invokedChunk = true →
      cursor < file.length ∧ 1 ≤ file.length ∧ 1 ≤ file.length - cursor ∧
      (file.length - 1) + 1 = file.length ∧
      ((file.length - cursor) - 1) + 1 = file.length - cursor := by
  intro h
  unfold process_event at h
  by_cases h1 : file.length < cursor
  · simp [h1] at h
  · by_cases h2 : file.length = cursor
    · simp [h1, h2] at h
    · omega

/-- C10 witness. -/
theorem chunk_arith_safe_witness :
    0 < ([97] : List Nat).length ∧ 1 ≤ ([97] : List Nat).length ∧
    1 ≤ ([97] : List Nat).length - 0 ∧
    (([97] : List Nat).length - 1) + 1 = ([97] : List Nat).length ∧
    ((([97] : List Nat).length - 0) - 1) + 1 = ([97] : List Nat).length - 0 :=
  chunk_arith_safe (fun _ => some "") [] matcherNone (fun _ => true) [97] 0 (by decide)

/-- C5: when the new region's last byte is not a newline, the poll produces no
chunk and leaves the cursor where it was; a later poll made after further
bytes ending in a newline are appended reads the whole pending region, from
the unchanged cursor up to (and excluding) that newline, as a single chunk. -/
theorem incomplete_chunk_deferred (decode : List Nat → Option String)
    (names : List (Option String)) (matcher : String → List CapMap)
    (spawnOk : Nat → Bool) (file ext : List Nat) (cursor : Nat) :
    (cursor < file.length → file.getLast? ≠ some 10 →
      process_event decode names matcher spawnOk file cursor =
        { newCursor := cursor, raw := none, chunk := none, executed := [], ok := true,
          reads := [(file.length - 1, 1)], invokedChunk := true }) ∧
    (cursor < (file ++ ext).length → (file ++ ext).getLast? = some 10 →
      (process_event decode names matcher spawnOk (file ++ ext) cursor).raw =
        some (((file ++ ext).drop cursor).take ((file ++ ext).length - cursor - 1))) := by
  constructor
  · intro hlt hb
    have hne : file ≠ [] := by
      intro h
      subst h
      simp at hlt
    have h1 : ¬ file.length < cursor := by omega
    have h2 : ¬ file.length = cursor := by omega
    have hlast : (file.drop (file.length - 1)).headD 0 ≠ 10 := by
      rw [headD_drop_pred, List.getLast?_eq_getLast file hne, Option.getD_some]
      intro hEq
      exact hb (by rw [List.getLast?_eq_getLast file hne, hEq])
    unfold process_event process_chunk
    rw [if_neg h1, if_neg h2, if_pos hlast]
  · intro hlt hb
    have h1 : ¬ (file ++ ext).length < cursor := by omega
    have h2 : ¬ (file ++ ext).length = cursor := by omega
    have hlast : ¬ ((file ++ ext).drop ((file ++ ext).length - 1)).headD 0 ≠ 10 := by
      rw [headD_drop_pred, hb]
      simp
    unfold process_event process_chunk
    rw [if_neg h1, if_neg h2, if_neg hlast]
    split
    · rfl
    · split <;> rfl

/-- C5 witness. -/
theorem incomplete_chunk_deferred_witness :
    process_event (fun _ => some "") [] matcherNone (fun _ => true) [97] 0 =
      { newCursor := 0, raw := none, chunk := none, executed := [], ok := true,
        reads := [(0, 1)], invokedChunk := true } ∧
    (process_event (fun _ => some "") [] matcherNone (fun _ => true) ([97] ++ [98, 10]) 0).raw =
      some ((([97] ++ [98, 10] : List Nat).drop 0).take
        (([97] ++ [98, 10] : List Nat).length - 0 - 1)) :=
  ⟨(incomplete_chunk_deferred (fun _ => some "") [] matcherNone (fun _ => true)
      [97] [98, 10] 0).1 (by decide) (by decide),
   (incomplete_chunk_deferred (fun _ => some "") [] matcherNone (fun _ => true)
      [97] [98, 10] 0).2 (by decide) (by decide)⟩

/-- C9: when the new region ends in a newline but its bytes fail decoding, the
poll logs and advances the cursor to the new length while dispatching no chunk
and executing no action; the skipped region is never retried — a further poll
on the unchanged file does not even invoke chunk processing. -/
theorem decode_failure_skips (decode : List Nat → Option String)
    (names : List (Option String)) (matcher : String → List CapMap)
    (spawnOk : Nat → Bool) (file : List Nat) (cursor : Nat)
    (hlt : cursor < file.length) (hnl : file.getLast? = some 10)
    (hdec : decode ((file.drop cursor).take (file.length - cursor - 1)) = none) :
    process_event decode names matcher spawnOk file cursor =
      { newCursor := file.length,
        raw := some ((file.drop cursor).take (file.length - cursor - 1)),
        chunk := none, executed := [], ok := true,
        reads := [(file.length - 1, 1), (cursor, file.length - cursor - 1)],
        invokedChunk := true } ∧
    (process_event decode names matcher spawnOk file file.length).invokedChunk = false := by
  constructor
  · have h1 : ¬ file.length < cursor := by omega
    have h2 : ¬ file.length = cursor := by omega
    have hlast : ¬ (file.drop (file.length - 1)).headD 0 ≠ 10 := by
      rw [headD_drop_pred, hnl]
      simp
    unfold process_event process_chunk
    rw [if_neg h1, if_neg h2, if_neg hlast, hdec]
  · unfold process_event
    rw [if_neg (by omega), if_pos rfl]

/-- C9 witness. -/
theorem decode_failure_skips_witness :
    process_event (fun _ => none) [] matcherNone (fun _ => true) [97, 10] 0 =
      { newCursor := 2, raw := some [97], chunk := none, executed := [], ok := true,
        reads := [(1, 1), (0, 1)], invokedChunk := true } ∧
    (process_event (fun _ => none) [] matcherNone (fun _ => true) [97, 10] 2).invokedChunk
      = false :=
  decode_failure_skips (fun _ => none) [] matcherNone (fun _ => true) [97, 10] 0
    (by decide) (by decide) rfl

theorem process_chunk_ok_false (decode : List Nat → Option String)
    (names : List (Option String)) (matcher : String → List CapMap)
    (spawnOk : Nat → Bool) (file : List Nat) (cursor new_size : Nat) :
    (process_chunk decode names matcher spawnOk file cursor new_size).ok = false →
    (process_chunk decode names matcher spawnOk file cursor new_size).newCursor = cursor := by
  unfold process_chunk
  split
  · simp
  · split
    · simp
    · split <;> simp

/-- C3: on a batch-timer tick, an empty queue sends nothing; a one-element
queue sends that notification unmodified; a longer queue sends exactly one
aggregate whose body joins the queued bodies with newlines in arrival order;
in every case the queue ends empty. -/
theorem on_tick_batches (cfg : NotificationConfig) (q : List Notification) :
    (q = [] → on_tick cfg q = (none, [])) ∧
    (∀ n, q = [n] → on_tick cfg q = (some n, [])) ∧
    (1 < q.length → on_tick cfg q =
      (some { type := cfg.name, title := "Ramon Aggregated Notification",
              body := String.intercalate "\n" (q.map fun n => n.body) }, [])) := by
  refine ⟨?_, ?_, ?_⟩
  · rintro rfl
    rfl
  · rintro n rfl
    rfl
  · intro hlen
    have h0 : q.isEmpty = false := by
      cases q with
      | nil => simp at hlen
      | cons a t => rfl
    have h1 : q.length ≠ 1 := by omega
    simp [on_tick, h0, h1]

/-- C3 witness. -/
theorem on_tick_batches_witness :
    on_tick ⟨"ch"⟩ [⟨"ch", "t1", "b1"⟩, ⟨"ch", "t2", "b2"⟩] =
      (some { type := "ch", title := "Ramon Aggregated Notification",
              body := String.intercalate "\n"
                (([⟨"ch", "t1", "b1"⟩, ⟨"ch", "t2", "b2"⟩] : List Notification).map
                  fun n => n.body) }, []) :=
  (on_tick_batches ⟨"ch"⟩ [⟨"ch", "t1", "b1"⟩, ⟨"ch", "t2", "b2"⟩]).2.2 (by decide)

/-- C6: whenever the rotation-recovery loop returns, a successful reopen has
reset the cursor to 0 and re-armed the watch; and a "file moved" failure
happens only when every reopen attempt actually made failed, the last of them
already past the one-second deadline. -/
theorem rotation_recovery_spec (as : List Attempt) (r : Except String FdState) :
    reinit_file_descriptors as = some r →
    ((∀ s, r = .ok s → s.cursor = 0 ∧ s.watching = true) ∧
     (∀ m, r = .error m → m = "file moved" ∧
       ∃ p rest, as = p ++ rest ∧ (∀ x ∈ p, x.ok = false) ∧
         ∃ lastA, p.getLast? = some lastA ∧ lastA.late = true)) := by
  induction as with
  | nil =>
    intro h
    simp [reinit_file_descriptors] at h
  | cons a rest ih =>
    intro h
    unfold reinit_file_descriptors at h
    by_cases hok : a.ok
    · rw [if_pos hok] at h
      have hr := Option.some.inj h
      subst hr
      refine ⟨?_, ?_⟩
      · intro s hs
        injection hs with hs'
        subst hs'
        exact ⟨rfl, rfl⟩
      · intro m hm
        simp at hm
    · rw [if_neg hok] at h
      by_cases hlate : a.late
      · rw [if_pos hlate] at h
        have hr := Option.some.inj h
        subst hr
        refine ⟨?_, ?_⟩
        · intro s hs
          simp at hs
        · intro m hm
          injection hm with hm'
          refine ⟨hm'.symm, [a], rest, rfl, ?_, a, rfl, by simpa using hlate⟩
          intro x hx
          rcases List.mem_singleton.mp hx with rfl
          simpa using hok
      · rw [if_neg hlate] at h
        obtain ⟨ih1, ih2⟩ := ih h
        refine ⟨ih1, ?_⟩
        intro m hm
        obtain ⟨hmsg, p, rest', heq, hall, lastA, hlastEq, hlastLate⟩ := ih2 m hm
        refine ⟨hmsg, a :: p, rest', by rw [heq]; rfl, ?_, lastA, ?_, hlastLate⟩
        · intro x hx
          rcases List.mem_cons.mp hx with rfl | hx'
          · simpa using hok
          · exact hall x hx'
        · cases p with
          | nil => simp at hlastEq
          | cons b t =>
            rw [List.getLast?_cons_cons]
            exact hlastEq

/-- C6 witness. -/
theorem rotation_recovery_spec_witness :
    FdState.cursor ⟨0, true⟩ = 0 ∧ FdState.watching ⟨0, true⟩ = true :=
  (rotation_recovery_spec [⟨true, false⟩] (.ok ⟨0, true⟩) rfl).1 ⟨0, true⟩ rfl

/-- C7: the environment built for one match holds exactly the named capture
groups that participated in that match, each bound to its captured text;
groups absent from the match are omitted without aborting the match — its
action is still executed and dispatch continues. -/
theorem capture_env_exact (names : List (Option String)) (caps : CapMap) :
    (∀ n v, (n, v) ∈ build_capture_env names caps ↔
      some n ∈ names ∧ caps.lookup n = some v) ∧
    (∀ rest, (run_matches names ((caps, true) :: rest)).1 =
      build_capture_env names caps :: (run_matches names rest).1) := by
  constructor
  · intro n v
    simp only [build_capture_env, List.mem_filterMap, Option.map_eq_some',
      Prod.mk.injEq, id_eq]
    constructor
    · rintro ⟨a, ⟨o, ho, rfl⟩, w, hw, rfl, rfl⟩
      exact ⟨ho, hw⟩
    · rintro ⟨hn, hv⟩
      exact ⟨n, ⟨some n, hn, rfl⟩, v, hv, rfl, rfl⟩
  · intro rest
    simp [run_matches]

/-- C7 witness. -/
theorem capture_env_exact_witness :
    ("u", "a") ∈ build_capture_env [some "u", some "x"] [("u", "a")] ∧
    (run_matches [some "u", some "x"] [([("u", "a")], true)]).1 =
      [build_capture_env [some "u", some "x"] [("u", "a")]] :=
  ⟨((capture_env_exact [some "u", some "x"] [("u", "a")]).1 "u" "a").mpr
      ⟨by decide, by decide⟩,
   by have h := (capture_env_exact [some "u", some "x"] [("u", "a")]).2 []
      simpa using h⟩

/-- C1 counterexample: a chunk in which the pattern matches twice and the
first match's spawn fails.  The `spawn()?.wait().await?` error propagates out
of the match loop, so no action at all is executed — in particular the second
match's action is not — and the chunk ends in a propagated error instead of a
per-match log entry. -/
theorem spawn_failure_aborts_counterexample :
    (process_chunk (fun _ => some "mm") [] (fun _ => [[], []]) (fun i => i != 0)
      [109, 109, 10] 0 3).executed = [] ∧
    (process_chunk (fun _ => some "mm") [] (fun _ => [[], []]) (fun i => i != 0)
      [109, 109, 10] 0 3).ok = false := by
  decide

/-- C1 amended: a spawn/wait failure on one match aborts the match loop — the
actions executed are exactly those of the longest prefix of matches whose
spawn succeeded, the loop reports success only when every match's spawn
succeeded, and a chunk whose match loop failed leaves the cursor where it
was (the error propagates and terminates the monitor). -/
theorem spawn_failure_aborts (names : List (Option String))
    (ms : List (CapMap × Bool)) :
    (run_matches names ms).1 =
      (ms.takeWhile fun p => p.2).map (fun p => build_capture_env names p.1) ∧
    ((run_matches names ms).2 = true ↔ ∀ p ∈ ms, p.2 = true) ∧
    (∀ decode matcher spawnOk file cursor new_size,
      (process_chunk decode names matcher spawnOk file cursor new_size).ok = false →
      (process_chunk decode names matcher spawnOk file cursor new_size).newCursor
        = cursor) := by
  refine ⟨?_, ?_, ?_⟩
  · induction ms with
    | nil => rfl
    | cons p rest ih =>
      obtain ⟨caps, ok⟩ := p
      cases ok
      · simp [run_matches, List.takeWhile_cons]
      · simp [run_matches, List.takeWhile_cons, ih]
  · induction ms with
    | nil => simp [run_matches]
    | cons p rest ih =>
      obtain ⟨caps, ok⟩ := p
      cases ok
      · simp [run_matches]
      · simp [run_matches, ih]
  · intro decode matcher spawnOk file cursor new_size h
    exact process_chunk_ok_false decode names matcher spawnOk file cursor new_size h

/-- C1 witness (for the amended claim). -/
theorem spawn_failure_aborts_witness :
    (process_chunk (fun _ => some "m") [] (fun _ => [[], []]) (fun i => i != 0)
      [109, 109, 10] 0 3).newCursor = 0 :=
  (spawn_failure_aborts [] []).2.2 (fun _ => some "m") (fun _ => [[], []])
    (fun i => i != 0) [109, 109, 10] 0 3 (by decide)

theorem process_event_poll (file : List Nat) (cursor : Nat) (h : cursor ≤ file.length) :
    ((process_event decodeTotal [] matcherNone (fun _ => true) file cursor).newCursor = cursor ∧
     (process_event decodeTotal [] matcherNone (fun _ => true) file cursor).raw = none ∧
     (cursor = file.length ∨ (file.drop (file.length - 1)).headD 0 ≠ 10)) ∨
    (cursor < file.length ∧ (file.drop (file.length - 1)).headD 0 = 10 ∧
     (process_event decodeTotal [] matcherNone (fun _ => true) file cursor).newCursor
       = file.length ∧
     (process_event decodeTotal [] matcherNone (fun _ => true) file cursor).raw
       = some ((file.drop cursor).take (file.length - cursor - 1))) := by
  by_cases h2 : file.length = cursor
  · left
    unfold process_event
    rw [if_neg (by omega), if_pos h2]
    exact ⟨rfl, rfl, Or.inl h2.symm⟩
  · have hlt : cursor < file.length := by omega
    by_cases hnl : (file.drop (file.length - 1)).headD 0 = 10
    · right
      refine ⟨hlt, hnl, ?_, ?_⟩ <;>
      · unfold process_event process_chunk
        rw [if_neg (by omega), if_neg h2, if_neg (not_ne_iff.mpr hnl)]
        rfl
    · left
      unfold process_event process_chunk
      rw [if_neg (by omega), if_neg h2, if_pos hnl]
      exact ⟨rfl, rfl, Or.inr hnl⟩

theorem chain_snoc_le (l : List Nat) (a b : Nat)
    (h : List.Chain' (· ≤ ·) (l ++ [a])) (hab : a ≤ b) :
    List.Chain' (· ≤ ·) ((l ++ [b]) ++ [b]) := by
  rw [List.chain'_append] at h
  obtain ⟨hl, _, hrel⟩ := h
  rw [List.chain'_append, List.chain'_append]
  refine ⟨⟨hl, by simp, ?_⟩, by simp, ?_⟩
  · intro x hx y hy
    simp at hy
    subst hy
    exact le_trans (hrel x hx a rfl) hab
  · intro x hx y hy
    simp at hx hy
    omega

theorem getLast?_of_headD_drop (l : List Nat) (hne : l ≠ [])
    (h : (l.drop (l.length - 1)).headD 0 = 10) : l.getLast? = some 10 := by
  rw [headD_drop_pred, List.getLast?_eq_getLast l hne, Option.getD_some] at h
  rw [List.getLast?_eq_getLast l hne, h]

theorem traceInv_step (s : TraceState) (st : TraceStep) (hinv : TraceInv s) :
    TraceInv (stepTrace s st) := by
  obtain ⟨hc, hj, hchain⟩ := hinv
  cases st with
  | write bs =>
    refine ⟨?_, ?_, ?_⟩
    · simp [stepTrace]
      omega
    · simp only [stepTrace]
      rw [List.take_append_of_le_length hc]
      exact hj
    · simpa [stepTrace] using hchain
  | poll =>
    rcases process_event_poll s.file s.cursor hc with ⟨hnc, hraw, _⟩ | ⟨hlt, hnl, hnc, hraw⟩
    · refine ⟨?_, ?_, ?_⟩
      · simp [stepTrace, hnc]
        exact hc
      · simp only [stepTrace, hnc, hraw, Option.toList_none, List.append_nil]
        exact hj
      · simp only [stepTrace, hnc, hraw]
        exact chain_snoc_le _ _ _ hchain le_rfl
    · have hfsplit := drop_cursor_split s.file s.cursor hlt
        (getLast?_of_headD_drop s.file (List.ne_nil_of_length_pos (by omega)) hnl)
      refine ⟨?_, ?_, ?_⟩
      · simp [stepTrace, hnc]
      · simp only [stepTrace, hnc, hraw, Option.toList_some]
        rw [joinNl_append, hj]
        have : joinNl [(s.file.drop s.cursor).take (s.file.length - s.cursor - 1)] =
            (s.file.drop s.cursor).take (s.file.length - s.cursor - 1) ++ [10] := by
          simp [joinNl]
        rw [this, ← hfsplit, List.take_append_drop, List.take_length]
      · simp only [stepTrace, hnc]
        exact chain_snoc_le _ _ _ hchain (le_of_lt hlt)

theorem traceInv_run (steps : List TraceStep) (s : TraceState) (hinv : TraceInv s) :
    TraceInv (List.foldl stepTrace s steps) := by
  induction steps generalizing s with
  | nil => exact hinv
  | cons st rest ih => exact ih _ (traceInv_step s st hinv)

theorem final_poll (s : TraceState) (hinv : TraceInv s)
    (hnl : s.file.getLast? = some 10) :
    (stepTrace s .poll).cursor = (stepTrace s .poll).file.length ∧
    joinNl (stepTrace s .poll).raws = (stepTrace s .poll).file := by
  obtain ⟨hc, hj, _⟩ := hinv
  have hlast10 : (s.file.drop (s.file.length - 1)).headD 0 = 10 := by
    rw [headD_drop_pred, hnl]
    rfl
  rcases process_event_poll s.file s.cursor hc with ⟨hnc, hraw, hor⟩ | ⟨hlt, _, hnc, hraw⟩
  · rcases hor with heq | hne
    · constructor
      · simp only [stepTrace]
        rw [hnc]
        exact heq
      · simp only [stepTrace, hnc, hraw, Option.toList_none, List.append_nil]
        rw [hj, heq, List.take_length]
    · exact absurd hlast10 hne
  · have hfsplit := drop_cursor_split s.file s.cursor hlt hnl
    constructor
    · simp [stepTrace, hnc]
    · simp only [stepTrace, hnc, hraw, Option.toList_some]
      rw [joinNl_append, hj]
      have : joinNl [(s.file.drop s.cursor).take (s.file.length - s.cursor - 1)] =
          (s.file.drop s.cursor).take (s.file.length - s.cursor - 1) ++ [10] := by
        simp [joinNl]
      rw [this, ← hfsplit, List.take_append_drop]

/-- C2 counterexample: writes `"a\n"` then `"b\n"`, each followed by a poll.
The produced chunks are `[97]` and `[98]`: their concatenation `[97, 98]` is
not the appended bytes minus the trailing newline (`[97, 10, 98]`), and after
the schedule the cursor already equals the file length, so a further poll
produces no additional chunk — the claimed equality is unreachable under this
poll schedule. -/
theorem tail_concat_counterexample :
    (runTrace [.write [97, 10], .poll, .write [98, 10], .poll]).raws = [[97], [98]] ∧
    [97, 98] ≠
      (runTrace [.write [97, 10], .poll, .write [98, 10], .poll]).file.dropLast ∧
    (runTrace [.write [97, 10], .poll, .write [98, 10], .poll]).cursor =
      (runTrace [.write [97, 10], .poll, .write [98, 10], .poll]).file.length ∧
    (stepTrace (runTrace [.write [97, 10], .poll, .write [98, 10], .poll]) .poll).raws =
      (runTrace [.write [97, 10], .poll, .write [98, 10], .poll]).raws := by
  decide

/-- C2 amended: for every schedule of appended writes and polls starting from
an empty file, the cursor values observed across polls are monotonically
non-decreasing, and the produced chunks — each restored with the single
trailing newline the engine strips from it — concatenate to exactly the
processed prefix of the appended bytes; when the appended bytes end in a
newline, one further poll consumes everything, so the chunks then reconstitute
exactly the raw appended bytes (equivalently: the concatenation of the chunks
is the appended bytes minus one newline per produced chunk, which matches the
original claim only when all content is consumed in a single chunk). -/
theorem tail_trace_spec (steps : List TraceStep) :
    List.Chain' (· ≤ ·) (runTrace steps).cursors ∧
    joinNl (runTrace steps).raws = (runTrace steps).file.take (runTrace steps).cursor ∧
    ((runTrace steps).file.getLast? = some 10 →
      (stepTrace (runTrace steps) .poll).cursor =
        (stepTrace (runTrace steps) .poll).file.length ∧
      joinNl (stepTrace (runTrace steps) .poll).raws =
        (stepTrace (runTrace steps) .poll).file) := by
  have h0 : TraceInv { file := [], cursor := 0, raws := [], cursors := [] } :=
    ⟨by simp, rfl, by simp⟩
  have hinv : TraceInv (runTrace steps) := traceInv_run steps _ h0
  obtain ⟨hc, hj, hchain⟩ := hinv
  refine ⟨?_, hj, ?_⟩
  · exact List.Chain'.sublist hchain (List.sublist_append_left _ _)
  · intro hnl
    exact final_poll _ ⟨hc, hj, hchain⟩ hnl

/-- C2 witness (for the amended claim). -/
theorem tail_trace_spec_witness :
    joinNl (runTrace [.write [97, 10], .poll]).raws =
      (runTrace [.write [97, 10], .poll]).file.take
        (runTrace [.write [97, 10], .poll]).cursor ∧
    (stepTrace (runTrace [.write [97, 10], .poll]) .poll).cursor =
      (stepTrace (runTrace [.write [97, 10], .poll]) .poll).file.length :=
  ⟨(tail_trace_spec [.write [97, 10], .poll]).2.1,
   ((tail_trace_spec [.write [97, 10], .poll]).2.2 (by decide)).1⟩

theorem lookup_eraseP_ne (k k' : String) (hne : k ≠ k') (l : TomlTable) :
    (l.eraseP fun p => p.1 == k').lookup k = l.lookup k := by
  induction l with
  | nil => rfl
  | cons p l ih =>
    obtain ⟨a, b⟩ := p
    simp only [List.eraseP_cons]
    by_cases hp : a = k'
    · subst hp
      simp only [beq_self_eq_true, cond_true]
      have hka : (k == a) = false := beq_eq_false_iff_ne.mpr hne
      simp [List.lookup, hka]
    · have hpa : (a == k') = false := beq_eq_false_iff_ne.mpr hp
      simp only [hpa, cond_false]
      by_cases hk : k = a
      · subst hk
        simp [List.lookup]
      · have hka : (k == a) = false := beq_eq_false_iff_ne.mpr hk
        simp [List.lookup, hka, ih]

theorem except_bind_ok {α β : Type} (e : Except String α) (f : α → Except String β)
    (c : β) : (e >>= f = .ok c) ↔ ∃ v, e = .ok v ∧ f v = .ok c := by
  cases e <;> simp [Bind.bind, Except.bind]

theorem parse_set_mg (v : Option Value) (p : TomlTable × Bool)
    (h : parse_set v = .ok p) : p.2 = is_table_value v := by
  cases v with
  | none =>
    injection h with h2
    subst h2
    rfl
  | some val =>
    cases val with
    | table s =>
      injection h with h2
      subst h2
      rfl
    | str s => injection h
    | int n => injection h
    | bool b => injection h
    | arr vs => injection h

theorem parse_push_mg (v : Option Value) (p : TomlTable × Bool)
    (h : parse_push v = .ok p) : p.2 = is_table_value v := by
  cases v with
  | none =>
    injection h with h2
    subst h2
    rfl
  | some val =>
    cases val with
    | table s =>
      injection h with h2
      subst h2
      rfl
    | str s => injection h
    | int n => injection h
    | bool b => injection h
    | arr vs => injection h

theorem parse_exec_mg (v : Option Value) (p : Option Exec × Bool)
    (h : parse_exec v = .ok p) : p.2 = is_arr_value v := by
  cases v with
  | none =>
    injection h with h2
    subst h2
    rfl
  | some val =>
    cases val with
    | str s =>
      injection h with h2
      subst h2
      rfl
    | arr vs =>
      simp only [parse_exec] at h
      by_cases he : vs.isEmpty = true
      · rw [if_pos he] at h
        injection h
      · rw [if_neg he] at h
        injection h with h2
        subst h2
        rfl
    | int n => injection h
    | bool b => injection h
    | table s => injection h

/-- C8: whenever `parse_monitor_config` accepts a monitor table, the derived
`mutates_globals` flag is true exactly when the table declares a `set` table,
a `push` table, or an argv-form (array) `exec`; in particular a monitor with
only `match_log` and a string `exec` gets `mutates_globals = false`. -/
theorem mutates_globals_iff (regex_new : String → Option Regex)
    (duration_parse : String → Option Nat) (name : String) (t : TomlTable)
    (cfg : MonitorConfig)
    (h : parse_monitor_config regex_new duration_parse name t = .ok cfg) :
    cfg.mutates_globals = (declares_set t || declares_push t || declares_exec_argv t) := by
  unfold parse_monitor_config at h
  simp only [tremove] at h
  rw [except_bind_ok] at h
  obtain ⟨every, -, h⟩ := h
  try dsimp only at h
  rw [except_bind_ok] at h
  obtain ⟨logv, -, h⟩ := h
  try dsimp only at h
  rw [except_bind_ok] at h
  obtain ⟨cooldown, -, h⟩ := h
  try dsimp only at h
  rw [except_bind_ok] at h
  obtain ⟨match_log, -, h⟩ := h
  try dsimp only at h
  rw [except_bind_ok] at h
  obtain ⟨pset, hset, h⟩ := h
  try dsimp only at h
  rw [except_bind_ok] at h
  obtain ⟨ppush, hpush, h⟩ := h
  try dsimp only at h
  rw [except_bind_ok] at h
  obtain ⟨pexec, hexec, h⟩ := h
  try dsimp only at h
  rw [except_bind_ok] at h
  obtain ⟨-, -, h⟩ := h
  try dsimp only at h
  simp only [pure, Except.pure, Except.ok.injEq] at h
  subst h
  rw [lookup_eraseP_ne "set" "match_log" (by decide),
      lookup_eraseP_ne "set" "cooldown" (by decide),
      lookup_eraseP_ne "set" "log" (by decide),
      lookup_eraseP_ne "set" "every" (by decide)] at hset
  rw [lookup_eraseP_ne "push" "set" (by decide),
      lookup_eraseP_ne "push" "match_log" (by decide),
      lookup_eraseP_ne "push" "cooldown" (by decide),
      lookup_eraseP_ne "push" "log" (by decide),
      lookup_eraseP_ne "push" "every" (by decide)] at hpush
  rw [lookup_eraseP_ne "exec" "push" (by decide),
      lookup_eraseP_ne "exec" "set" (by decide),
      lookup_eraseP_ne "exec" "match_log" (by decide),
      lookup_eraseP_ne "exec" "cooldown" (by decide),
      lookup_eraseP_ne "exec" "log" (by decide),
      lookup_eraseP_ne "exec" "every" (by decide)] at hexec
  have e1 := parse_set_mg _ _ hset
  have e2 := parse_push_mg _ _ hpush
  have e3 := parse_exec_mg _ _ hexec
  show (pset.2 || ppush.2 || pexec.2)
      = (declares_set t || declares_push t || declares_exec_argv t)
  rw [e1, e2, e3]
  rfl

/-- C8 witness: a monitor declaring only `match_log` and a string `exec` is
accepted with `mutates_globals = false`. -/
theorem mutates_globals_iff_witness :
    MonitorConfig.mutates_globals
        { name := "m", mutates_globals := false, every := none, log := none,
          cooldown := none, match_log := some ⟨"x"⟩, exec := some (.shell "echo"),
          set := [], push := [] } =
      (declares_set [("match_log", Value.str "x"), ("exec", Value.str "echo")] ||
       declares_push [("match_log", Value.str "x"), ("exec", Value.str "echo")] ||
       declares_exec_argv [("match_log", Value.str "x"), ("exec", Value.str "echo")]) :=
  mutates_globals_iff (fun s => some ⟨s⟩) (fun _ => none) "m"
    [("match_log", Value.str "x"), ("exec", Value.str "echo")] _ rfl

end Radon
